import Mathlib

/-!
React packager: `Packager/index.js` and `NativeMethodsMixin.setNativeProps`.

A shallow embedding of the orchestration code of the module bundler
(`packager/react-packager/src/Packager/index.js`) and of
`NativeMethodsMixin.setNativeProps`.

JavaScript strings are modelled by Lean strings (sequences of Unicode scalar
values, i.e. well-formed UTF-16).  Collaborators whose code lives in other
files (`DependencyResolver`, `Transformer`, `Package`, `Activity`, `fs`,
`path`, `flattenStyle`, `mergeFast`) are represented by the calls made on them
and by the results they hand back.
-/

namespace ReactPackager

/-! ## Strings, the asset-prefix regular expression, `JSON.stringify` -/

/-- Backtracking match of the pattern `[^!]+!` at the head of the input.  A
successful match returns the text that follows the matched part.  The
quantifier is greedy: extending the run of non-`!` characters is tried first,
closing the match with `!` only afterwards. -/
def matchPrefixRE : List Char → Option (List Char)
  | [] => none
  | c :: cs =>
    if c = '!' then none
    else
      match matchPrefixRE cs with
      | some rest => some rest
      | none =>
        match cs with
        | d :: rest => if d = '!' then some rest else none
        | [] => none

/-- The expression `id.replace(/^[^!]+!/, '')`: the pattern is anchored at the
start of the string and is not global, so the only candidate match starts at
index 0 and is replaced by the empty string. -/
def assetUri (id : String) : String :=
  match matchPrefixRE id.data with
  | some rest => String.mk rest
  | none => id

/-- Hexadecimal digit (lower case) of a number below 16. -/
def hexDigit (n : Nat) : Char :=
  if n < 10 then Char.ofNat (48 + n) else Char.ofNat (87 + n)

/-- Escape of one character inside a JSON string literal, following
`QuoteJSONString`: the quote and the backslash are escaped, control characters
use their short escape or `\u00XX`, every other character stands for
itself. -/
def quoteJSONChar (c : Char) : List Char :=
  if c = Char.ofNat 34 then [Char.ofNat 92, Char.ofNat 34]
  else if c = Char.ofNat 92 then [Char.ofNat 92, Char.ofNat 92]
  else if c = Char.ofNat 8 then [Char.ofNat 92, 'b']
  else if c = Char.ofNat 12 then [Char.ofNat 92, 'f']
  else if c = Char.ofNat 10 then [Char.ofNat 92, 'n']
  else if c = Char.ofNat 13 then [Char.ofNat 92, 'r']
  else if c = Char.ofNat 9 then [Char.ofNat 92, 't']
  else if c.toNat < 32 then
    [Char.ofNat 92, 'u', '0', '0', hexDigit (c.toNat / 16), hexDigit (c.toNat % 16)]
  else [c]

/-- The JSON string literal for `s`: `JSON.stringify(s)`. -/
def quoteJSONString (s : String) : String :=
  String.mk ([Char.ofNat 34] ++ s.data.flatMap quoteJSONChar ++ [Char.ofNat 34])

/-- Property values that occur in the object literal serialised by
`generateAssetModule`. -/
inductive JSONValue where
  | str (s : String)
  | bool (b : Bool)
  deriving DecidableEq, Repr

/-- Serialisation of one property value. -/
def JSONValue.stringify : JSONValue → String
  | .str s => quoteJSONString s
  | .bool true => "true"
  | .bool false => "false"

/-- Serialisation of the members of an object, in property order, separated
by commas and without any white space (no `space` argument is given). -/
def JSON.members : List (String × JSONValue) → String
  | [] => ""
  | [(k, v)] => quoteJSONString k ++ ":" ++ v.stringify
  | (k, v) :: more => quoteJSONString k ++ ":" ++ v.stringify ++ "," ++ JSON.members more

/-- The call `JSON.stringify(obj)` for a plain object given by its own
enumerable properties in creation order. -/
def JSON.stringify (obj : List (String × JSONValue)) : String :=
  "\x7b" ++ JSON.members obj ++ "\x7d"

/-! ## Data model -/

/-- A module of the dependency graph, as far as `Packager` looks at it. -/
structure Module where
  id : String
  path : String
  isAsset : Bool
  deriving DecidableEq, Repr

/-- Result of transforming one module. -/
structure Transformed where
  code : String
  sourceCode : String
  sourcePath : String
  deriving DecidableEq, Repr

/-- Source function `generateAssetModule`. -/
def generateAssetModule (module : Module) : Transformed :=
  let code := "module.exports = " ++ JSON.stringify [
    ("uri", JSONValue.str (assetUri module.id)),
    ("isStatic", JSONValue.bool true)] ++ ";"
  { code := code
    sourceCode := code
    sourcePath := module.path }

/-! ## Errors, options and construction -/

/-- A thrown JavaScript error: its `name` and its `message`. -/
structure JSError where
  name : String
  message : String
  deriving DecidableEq, Repr

deriving instance DecidableEq for Except

/-- Handle of the file watcher injected by the caller. -/
structure FileWatcher where
  handle : Nat
  deriving DecidableEq, Repr

/-- The `options` argument of the constructor; `none` is an absent
property. -/
structure RawOptions where
  projectRoots : Option (List String)
  blacklistRE : Option String
  moduleFormat : Option String
  polyfillModuleNames : Option (List String)
  cacheVersion : Option String
  resetCache : Option Bool
  transformModulePath : Option String
  nonPersistent : Option Bool
  assetRoots : Option (List String)
  assetExts : Option (List String)
  fileWatcher : Option FileWatcher
  deriving DecidableEq, Repr

/-- Validated options, defaults filled in. -/
structure Options where
  projectRoots : List String
  blacklistRE : Option String
  moduleFormat : String
  polyfillModuleNames : List String
  cacheVersion : String
  resetCache : Bool
  transformModulePath : Option String
  nonPersistent : Bool
  assetRoots : Option (List String)
  assetExts : List String
  fileWatcher : FileWatcher
  deriving DecidableEq, Repr

/-- Modelled from the spec: `declareOpts` (`../lib/declareOpts`) is not among
the sources.  The validator it builds from the descriptor in
`Packager/index.js` follows the description of the construction options:
they are validated eagerly, a missing required field fails fast,
`projectRoots` is required and holds at least one directory, `fileWatcher`
is required, and each declared default is filled in.  Whether a listed root
exists is not its business: that is checked by `verifyRootExists`. -/
def validateOpts (options : RawOptions) : Except JSError Options :=
  match options.projectRoots, options.fileWatcher with
  | none, _ =>
    .error ⟨"Error", "Error validating module options: projectRoots is required"⟩
  | some [], _ =>
    .error ⟨"Error", "Error validating module options: projectRoots must not be empty"⟩
  | some (_ :: _), none =>
    .error ⟨"Error", "Error validating module options: fileWatcher is required"⟩
  | some (root :: more), some fileWatcher =>
    .ok {
      projectRoots := root :: more
      blacklistRE := options.blacklistRE
      moduleFormat := options.moduleFormat.getD "haste"
      polyfillModuleNames := options.polyfillModuleNames.getD []
      cacheVersion := options.cacheVersion.getD "1.0"
      resetCache := options.resetCache.getD false
      transformModulePath := options.transformModulePath
      nonPersistent := options.nonPersistent.getD false
      assetRoots := options.assetRoots
      assetExts := options.assetExts.getD ["png"]
      fileWatcher := fileWatcher }

/-- What `fs.statSync` reports about an existing path. -/
structure Stats where
  isDirectory : Bool
  deriving DecidableEq, Repr

/-- The file system as seen through `fs.statSync`: an error is thrown for a
path that cannot be examined (a missing path in particular). -/
abbrev StatSync := String → Except JSError Stats

/-- Source function `verifyRootExists`:
`assert(fs.statSync(root).isDirectory(), 'Root has to be a valid directory')`. -/
def verifyRootExists (statSync : StatSync) (root : String) : Except JSError Unit :=
  match statSync root with
  | .error e => .error e
  | .ok stats =>
    if stats.isDirectory then .ok ()
    else .error ⟨"AssertionError", "Root has to be a valid directory"⟩

/-- The loop `opts.projectRoots.forEach(verifyRootExists)`: the first throw
leaves the loop. -/
def forEachVerifyRootExists (statSync : StatSync) : List String → Except JSError Unit
  | [] => .ok ()
  | root :: more =>
    match verifyRootExists statSync root with
    | .error e => .error e
    | .ok () => forEachVerifyRootExists statSync more

/-- Argument of `new DependencyResolver(...)`. -/
structure ResolverConfig where
  projectRoots : List String
  blacklistRE : Option String
  polyfillModuleNames : List String
  nonPersistent : Bool
  moduleFormat : String
  assetRoots : Option (List String)
  fileWatcher : FileWatcher
  deriving DecidableEq, Repr

/-- Argument of `new Transformer(...)`. -/
structure TransformerConfig where
  projectRoots : List String
  blacklistRE : Option String
  cacheVersion : String
  resetCache : Bool
  transformModulePath : Option String
  nonPersistent : Bool
  deriving DecidableEq, Repr

/-- Collaborator objects created by the constructor, in creation order. -/
inductive Created where
  | dependencyResolver (config : ResolverConfig)
  | transformer (config : TransformerConfig)
  deriving DecidableEq, Repr

/-- A `Packager` instance: its options and the two collaborators it owns. -/
structure Packager where
  _opts : Options
  _resolver : ResolverConfig
  _transformer : TransformerConfig
  deriving DecidableEq, Repr

/-- Outcome of running the constructor: the collaborators created so far and
either the instance or the error thrown. -/
structure Construction where
  created : List Created
  result : Except JSError Packager
  deriving Repr

/-- Source function `Packager` (the constructor). -/
def Packager.new (statSync : StatSync) (options : RawOptions) : Construction :=
  match validateOpts options with
  | .error e => { created := [], result := .error e }
  | .ok opts =>
    match forEachVerifyRootExists statSync opts.projectRoots with
    | .error e => { created := [], result := .error e }
    | .ok () =>
      let resolver : ResolverConfig := {
        projectRoots := opts.projectRoots
        blacklistRE := opts.blacklistRE
        polyfillModuleNames := opts.polyfillModuleNames
        nonPersistent := opts.nonPersistent
        moduleFormat := opts.moduleFormat
        assetRoots := opts.assetRoots
        fileWatcher := opts.fileWatcher }
      let transformer : TransformerConfig := {
        projectRoots := opts.projectRoots
        blacklistRE := opts.blacklistRE
        cacheVersion := opts.cacheVersion
        resetCache := opts.resetCache
        transformModulePath := opts.transformModulePath
        nonPersistent := opts.nonPersistent }
      { created := [Created.dependencyResolver resolver, Created.transformer transformer]
        result := .ok { _opts := opts, _resolver := resolver, _transformer := transformer } }

/-! ## Collaborators, calls and promises -/

/-- Value of the promise returned by the resolver's `getDependencies`. -/
structure DependencyResult where
  mainModuleId : String
  dependencies : List Module
  deriving DecidableEq, Repr

/-- Behaviour of the collaborators of a `Packager` instance (`this._resolver`,
`this._transformer`, `path`).  A promise-returning method is given by the
outcome with which its promise settles. -/
structure Collaborators where
  getDependencies : String → Bool → Except JSError DependencyResult
  wrapModule : Module → String → Except JSError String
  loadFileAndTransform : String → Except JSError Transformed
  pathResolve : String → String

/-- Calls made on the resolver, the transformer and `Activity`. -/
inductive Call where
  | startEvent (label : String)
  | endEvent (label : String)
  | getDependencies (main : String) (dev : Bool)
  | wrapModule (module : Module) (code : String)
  | loadFileAndTransform (path : String)
  | invalidateFile (path : String)
  deriving DecidableEq, Repr

/-- Method calls received by a `Package` object. -/
inductive PackageCall where
  | setMainModuleId (id : String)
  | addModule (code : String) (sourceCode : String) (sourcePath : String)
  | finalize (runMainModule : Bool)
  deriving DecidableEq, Repr

/-- A `Package` object (`./Package`), represented by its constructor argument
and the method calls it has received, oldest first. -/
structure Package where
  sourceMapUrl : String
  calls : List PackageCall
  deriving DecidableEq, Repr

/-- The expression `new Package(sourceMapUrl)`. -/
def Package.new (sourceMapUrl : String) : Package :=
  { sourceMapUrl := sourceMapUrl, calls := [] }

/-- Records `ppackage.setMainModuleId(id)`. -/
def Package.setMainModuleId (p : Package) (id : String) : Package :=
  { p with calls := p.calls ++ [PackageCall.setMainModuleId id] }

/-- Records `ppackage.addModule(code, sourceCode, sourcePath)`. -/
def Package.addModule (p : Package) (code sourceCode sourcePath : String) : Package :=
  { p with calls := p.calls ++ [PackageCall.addModule code sourceCode sourcePath] }

/-- Records `ppackage.finalize({ runMainModule })`. -/
def Package.finalize (p : Package) (runMainModule : Bool) : Package :=
  { p with calls := p.calls ++ [PackageCall.finalize runMainModule] }

/-- State of a promise. -/
inductive PromiseState (α : Type) where
  | pending
  | fulfilled (value : α)
  | rejected (reason : JSError)
  deriving DecidableEq, Repr

/-- A promise produced by `transform.then(callback)`: the calls its callback
makes once `transform` is fulfilled, and the outcome it settles with. -/
structure Deferred (α : Type) where
  calls : List Call
  outcome : Except JSError α
  deriving Repr

/-- The first statement of `_transformModule`: the calls it makes and the
outcome of the promise bound to the variable `transform`.  An asset module is
generated on the spot (`q(generateAssetModule(module))`), any other module is
handed to `loadFileAndTransform(path.resolve(module.path))`. -/
def Packager.transform (env : Collaborators) (module : Module) :
    List Call × Except JSError Transformed :=
  if module.isAsset then
    ([], .ok (generateAssetModule module))
  else
    ([Call.loadFileAndTransform (env.pathResolve module.path)],
      env.loadFileAndTransform (env.pathResolve module.path))

/-- Source function `Packager.prototype._transformModule`.  The first
component lists the calls made synchronously, the second is the returned
promise `transform.then(...)`, whose callback replaces `code` by
`resolver.wrapModule(module, transformed.code)`. -/
def Packager._transformModule (env : Collaborators) (module : Module) :
    List Call × Deferred Transformed :=
  let transform := Packager.transform env module
  match transform.2 with
  | .error e => (transform.1, { calls := [], outcome := .error e })
  | .ok transformed =>
    (transform.1,
      { calls := [Call.wrapModule module transformed.code]
        outcome :=
          match env.wrapModule module transformed.code with
          | .error e => .error e
          | .ok code => .ok { transformed with code := code } })

/-- Gathers the result array of `Promise.all` when every slot is filled. -/
def collectSlots {α : Type} : List (Option α) → Option (List α)
  | [] => some []
  | none :: _ => none
  | some v :: more =>
    match collectSlots more with
    | none => none
    | some vs => some (v :: vs)

/-- Progress of `Promise.all(promises)`: which input promises have settled,
the result array under construction, the calls made by the callbacks that
ran, and the state of the combined promise. -/
structure AllProgress (α : Type) where
  settled : List Nat
  slots : List (Option α)
  calls : List Call
  state : PromiseState (List α)

/-- Start of `Promise.all`: nothing has settled; an empty input array
fulfils at once. -/
def AllProgress.start {α : Type} (promises : List (Deferred α)) : AllProgress α :=
  let slots : List (Option α) := List.replicate promises.length none
  { settled := []
    slots := slots
    calls := []
    state :=
      match collectSlots slots with
      | some vs => .fulfilled vs
      | none => .pending }

/-- The input promise at index `i` settles.  A promise settles once, so an
index that has settled already, or that is outside the array, changes
nothing.  A fulfilment is stored at its own index and fulfils the combined
promise when it was the last one missing; a rejection rejects the combined
promise unless that has been settled before. -/
def AllProgress.settle {α : Type} (promises : List (Deferred α)) (p : AllProgress α)
    (i : Nat) : AllProgress α :=
  if i ∈ p.settled then p
  else
    match promises[i]? with
    | none => p
    | some d =>
      match d.outcome with
      | .error e =>
        { settled := i :: p.settled
          slots := p.slots
          calls := p.calls ++ d.calls
          state :=
            match p.state with
            | .pending => .rejected e
            | s => s }
      | .ok v =>
        { settled := i :: p.settled
          slots := p.slots.set i (some v)
          calls := p.calls ++ d.calls
          state :=
            match p.state with
            | .pending =>
              match collectSlots (p.slots.set i (some v)) with
              | some vs => .fulfilled vs
              | none => .pending
            | s => s }

/-- The call `Promise.all(promises)` observed after the input promises have
settled in the order given by `schedule` (indices into `promises`). -/
def Promise.all {α : Type} (promises : List (Deferred α)) (schedule : List Nat) :
    AllProgress α :=
  schedule.foldl (AllProgress.settle promises) (AllProgress.start promises)

/-- Observation of one `package()` call: calls made on the collaborators,
the `ppackage` object, and the state of the returned promise. -/
structure PackageRun where
  calls : List Call
  ppackage : Package
  result : PromiseState Package
  deriving Repr

/-- Source function `Packager.prototype.getDependencies`. -/
def Packager.getDependencies (env : Collaborators) (main : String) (isDev : Bool) :
    List Call × Except JSError DependencyResult :=
  ([Call.getDependencies main isDev], env.getDependencies main isDev)

/-- Source function `Packager.prototype.package`.  The argument `schedule`
is the order in which the promises of the per-module transforms settle. -/
def Packager.package (env : Collaborators) (main : String) (runModule : Bool)
    (sourceMapUrl : String) (isDev : Bool) (schedule : List Nat) : PackageRun :=
  let ppackage := Package.new sourceMapUrl
  let found := Packager.getDependencies env main isDev
  let calls := [Call.startEvent "find dependencies"] ++ found.1
  match found.2 with
  | .error e => { calls := calls, ppackage := ppackage, result := .rejected e }
  | .ok result =>
    let calls := calls ++ [Call.endEvent "find dependencies", Call.startEvent "transform"]
    let ppackage := ppackage.setMainModuleId result.mainModuleId
    let started := result.dependencies.map (Packager._transformModule env)
    let calls := calls ++ (started.map Prod.fst).flatten
    let all := Promise.all (started.map Prod.snd) schedule
    let calls := calls ++ all.calls
    match all.state with
    | .pending => { calls := calls, ppackage := ppackage, result := .pending }
    | .rejected e => { calls := calls, ppackage := ppackage, result := .rejected e }
    | .fulfilled transformedModules =>
      let ppackage := transformedModules.foldl
        (fun p transformed =>
          p.addModule transformed.code transformed.sourceCode transformed.sourcePath)
        ppackage
      let ppackage := ppackage.finalize runModule
      { calls := calls ++ [Call.endEvent "transform"]
        ppackage := ppackage
        result := .fulfilled ppackage }

/-- Source function `Packager.prototype.invalidateFile`. -/
def Packager.invalidateFile (filePath : String) : List Call :=
  [Call.invalidateFile filePath]

/-! ## `NativeMethodsMixin.setNativeProps` -/

/-- JavaScript values that pass through `setNativeProps`.  An object is given
by its enumerable properties in enumeration order. -/
inductive JSValue where
  | undefined
  | null
  | bool (b : Bool)
  | number (n : Int)
  | string (s : String)
  | object (props : List (String × JSValue))

/-- The abstract operation `ToBoolean`. -/
def JSValue.truthy : JSValue → Bool
  | .undefined => false
  | .null => false
  | .bool b => b
  | .number n => n != 0
  | .string s => s != ""
  | .object _ => true

/-- Property read `obj[key]` on a plain object: `undefined` when absent. -/
def getProperty (props : List (String × JSValue)) (key : String) : JSValue :=
  match props.find? (fun kv => kv.1 == key) with
  | some kv => kv.2
  | none => JSValue.undefined

/-- The loop `for (var key in nativeProps) if (key !== 'style') ... break`:
the value of `hasOnlyStyle` after the loop. -/
def hasOnlyStyle : List (String × JSValue) → Bool
  | [] => true
  | kv :: more => if kv.1 != "style" then false else hasOnlyStyle more

/-- The component on which `setNativeProps` is called (`this`). -/
structure NativeComponent where
  nodeHandle : Nat
  uiViewClassName : String
  deriving DecidableEq, Repr

/-- Calls made on `RCTUIManager`. -/
inductive UIManagerCall where
  | updateView (reactTag : Nat) (viewName : String) (props : JSValue)

/-- Source function `NativeMethodsMixin.setNativeProps`; `flattenStyle` and
`mergeFast` are the functions of the modules of the same names. -/
def setNativeProps (flattenStyle : JSValue → JSValue)
    (mergeFast : JSValue → JSValue → JSValue) (self : NativeComponent)
    (nativeProps : List (String × JSValue)) : List UIManagerCall :=
  let style := flattenStyle (getProperty nativeProps "style")
  let props :=
    if hasOnlyStyle nativeProps then style
    else if !style.truthy then JSValue.object nativeProps
    else mergeFast (JSValue.object nativeProps) style
  [UIManagerCall.updateView self.nodeHandle self.uiViewClassName props]

/-! ## Definitions used in the statements -/

/-- The reading of the uri given in the interface description: the id with
everything up to and including its final `!` removed (the whole id when it
has no `!`). -/
def afterFinalBang (id : String) : String :=
  String.mk (id.data.reverse.takeWhile (fun c => c != '!')).reverse

/-- Options listing `roots` as project roots, with a file watcher and nothing
else. -/
def optionsWithRoots (roots : List String) : RawOptions :=
  { projectRoots := some roots
    blacklistRE := none
    moduleFormat := none
    polyfillModuleNames := none
    cacheVersion := none
    resetCache := none
    transformModulePath := none
    nonPersistent := none
    assetRoots := none
    assetExts := none
    fileWatcher := some { handle := 0 } }

/-- A file system in which `/app` is a directory, `/app/index.js` is a file
and nothing else exists. -/
def sampleStatSync : StatSync := fun path =>
  if path = "/app" then .ok { isDirectory := true }
  else if path = "/app/index.js" then .ok { isDirectory := false }
  else .error { name := "Error", message := "ENOENT, no such file or directory" }

/-- Recognises a call of `Transformer.loadFileAndTransform`. -/
def Call.isLoadFileAndTransform : Call → Bool
  | .loadFileAndTransform _ => true
  | _ => false

/-- Recognises a call made on the resolver. -/
def Call.isResolverCall : Call → Bool
  | .getDependencies _ _ => true
  | .wrapModule _ _ => true
  | _ => false

/-- Collaborators used in the examples: the resolver reports the module `a`,
the asset `img!b.png` and the module `c`; wrapping brackets the code;
the transformer tags the path. -/
def sampleEnv : Collaborators :=
  { getDependencies := fun _ _ =>
      .ok { mainModuleId := "a"
            dependencies := [
              { id := "a", path := "a.js", isAsset := false },
              { id := "img!b.png", path := "/img/b.png", isAsset := true },
              { id := "c", path := "c.js", isAsset := false }] }
    wrapModule := fun m code => .ok ("__d(" ++ m.id ++ "," ++ code ++ ")")
    loadFileAndTransform := fun path =>
      .ok { code := "T:" ++ path, sourceCode := "S:" ++ path, sourcePath := path }
    pathResolve := fun path => "/app/" ++ path }

/-- Recognises `addModule`. -/
def PackageCall.isAddModule : PackageCall → Bool
  | .addModule _ _ _ => true
  | _ => false

/-- Recognises `setMainModuleId`. -/
def PackageCall.isSetMainModuleId : PackageCall → Bool
  | .setMainModuleId _ => true
  | _ => false

/-- Recognises `finalize`. -/
def PackageCall.isFinalize : PackageCall → Bool
  | .finalize _ => true
  | _ => false

/-- A `flattenStyle` for the examples: a style that is already a plain
object, or absent, is returned as it is. -/
def sampleFlattenStyle : JSValue → JSValue := fun style => style

/-- A `mergeFast` for the examples: a new object holding the properties of
both arguments. -/
def sampleMergeFast : JSValue → JSValue → JSValue
  | .object one, .object two => .object (one ++ two)
  | one, _ => one

/-- The dependency result reported by the resolver of `sampleEnv`. -/
def sampleResult : DependencyResult :=
  { mainModuleId := "a"
    dependencies := [
      { id := "a", path := "a.js", isAsset := false },
      { id := "img!b.png", path := "/img/b.png", isAsset := true },
      { id := "c", path := "c.js", isAsset := false }] }

/-- What the transform of a module yields under `sampleEnv`. -/
def sampleTransformed (d : Module) : Transformed :=
  if d.isAsset then generateAssetModule d
  else
    { code := "T:" ++ ("/app/" ++ d.path)
      sourceCode := "S:" ++ ("/app/" ++ d.path)
      sourcePath := "/app/" ++ d.path }

/-- What wrapping the transformed code of a module yields under
`sampleEnv`. -/
def sampleWrapped (d : Module) : String :=
  "__d(" ++ d.id ++ "," ++ (sampleTransformed d).code ++ ")"

/-- The collaborators of `sampleEnv`, except that the transform of `c.js`
fails. -/
def failingEnv : Collaborators :=
  { getDependencies := sampleEnv.getDependencies
    wrapModule := sampleEnv.wrapModule
    loadFileAndTransform := fun path =>
      if path = "/app/c.js" then .error { name := "SyntaxError", message := "c.js" }
      else sampleEnv.loadFileAndTransform path
    pathResolve := sampleEnv.pathResolve }

/-- Invariant of the progress of `Promise.all` over the input promises
`ds`: the result array has one slot per promise, a filled slot holds the
value its promise was fulfilled with, every fulfilled promise that has
settled has its slot filled, and the state of the combined promise agrees
with the outcomes seen so far. -/
structure AllProgress.Inv {α : Type} (ds : List (Deferred α)) (p : AllProgress α) :
    Prop where
  length_slots : p.slots.length = ds.length
  slot_sound : ∀ (i : Nat) (v : α), p.slots[i]? = some (some v) →
    ∃ d : Deferred α, ds[i]? = some d ∧ d.outcome = .ok v
  slot_filled : ∀ (i : Nat) (d : Deferred α) (v : α), i ∈ p.settled → ds[i]? = some d → d.outcome = .ok v →
    p.slots[i]? = some (some v)
  fulfilled_sound : ∀ vs, p.state = .fulfilled vs →
    ds.map (fun d => d.outcome) = vs.map Except.ok
  pending_open : p.state = .pending → collectSlots p.slots = none
  pending_ok : p.state = .pending →
    ∀ i ∈ p.settled, ∀ d : Deferred α, ds[i]? = some d → ∃ v, d.outcome = .ok v
  rejected_sound : ∀ e, p.state = .rejected e → ∃ d ∈ ds, d.outcome = .error e

/-! ## The asset-prefix pattern -/

theorem matchPrefixRE_bang (cs : List Char) : matchPrefixRE ('!' :: cs) = none := by
  simp [matchPrefixRE]

theorem matchPrefixRE_no_bang (cs : List Char) (h : '!' ∉ cs) : matchPrefixRE cs = none := by
  induction cs with
  | nil => rfl
  | cons c cs ih =>
    have hc : c ≠ '!' := fun hc => h (by simp [hc])
    have hcs : '!' ∉ cs := fun hm => h (List.mem_cons_of_mem _ hm)
    simp only [matchPrefixRE, hc, if_false, ih hcs]
    cases cs with
    | nil => rfl
    | cons d rest =>
      have hd : d ≠ '!' := fun hd => hcs (by simp [hd])
      simp [hd]

theorem matchPrefixRE_run (p r : List Char) (hp : p ≠ []) (h : '!' ∉ p) :
    matchPrefixRE (p ++ '!' :: r) = some r := by
  induction p with
  | nil => exact absurd rfl hp
  | cons c p ih =>
    have hc : c ≠ '!' := fun hc => h (by simp [hc])
    have hrest : '!' ∉ p := fun hm => h (List.mem_cons_of_mem _ hm)
    cases p with
    | nil => simp [matchPrefixRE, hc]
    | cons d q =>
      have := ih (by simp) hrest
      simp only [List.cons_append] at this ⊢
      rw [matchPrefixRE]
      simp [hc, this]

theorem assetUri_no_bang (id : String) (h : '!' ∉ id.data) : assetUri id = id := by
  simp [assetUri, matchPrefixRE_no_bang _ h]

theorem assetUri_run (p r : List Char) (hp : p ≠ []) (h : '!' ∉ p) :
    assetUri (String.mk (p ++ '!' :: r)) = String.mk r := by
  simp [assetUri, matchPrefixRE_run p r hp h]

theorem assetUri_leading_bang (r : List Char) :
    assetUri (String.mk ('!' :: r)) = String.mk ('!' :: r) := by
  simp [assetUri, matchPrefixRE_bang]

theorem assetUri_head_bang (id : String) (h : id.data.head? = some '!') :
    assetUri id = id := by
  obtain ⟨cs⟩ := id
  cases cs with
  | nil => simp at h
  | cons c r =>
    simp only [List.head?_cons, Option.some.injEq] at h
    subst h
    exact assetUri_leading_bang r

/-! ## Claims about `generateAssetModule` -/

/-- C1 (as stated, refuted): for the id `a!b!c` the uri placed in the
generated code is `b!c`, not the text `c` that follows the final `!`. -/
theorem generateAssetModule_uri_final_bang_counterexample :
    afterFinalBang "a!b!c" = "c" ∧
    assetUri "a!b!c" = "b!c" ∧
    assetUri "a!b!c" ≠ afterFinalBang "a!b!c" ∧
    (generateAssetModule { id := "a!b!c", path := "/img/c", isAsset := true }).code
      = "module.exports = \x7b\"uri\":\"b!c\",\"isStatic\":true\x7d;" := by
  decide

/-- C1 (amended): the uri that `generateAssetModule` puts in the generated
code is the id without its leading non-empty run of characters other than
`!` and the first `!` that ends this run; an id with no `!`, or an id that
starts with `!`, is used unchanged. -/
theorem generateAssetModule_uri_first_bang (m : Module) :
    (∀ p r : List Char, p ≠ [] → '!' ∉ p → m.id = String.mk (p ++ '!' :: r) →
      (generateAssetModule m).code =
        "module.exports = " ++ JSON.stringify [
          ("uri", JSONValue.str (String.mk r)),
          ("isStatic", JSONValue.bool true)] ++ ";") ∧
    (('!' ∉ m.id.data ∨ m.id.data.head? = some '!') →
      (generateAssetModule m).code =
        "module.exports = " ++ JSON.stringify [
          ("uri", JSONValue.str m.id),
          ("isStatic", JSONValue.bool true)] ++ ";") := by
  refine ⟨?_, ?_⟩
  · intro p r hp hbang hid
    simp only [generateAssetModule, hid, assetUri_run p r hp hbang]
  · intro h
    have huri : assetUri m.id = m.id := by
      rcases h with h | h
      · exact assetUri_no_bang _ h
      · exact assetUri_head_bang _ h
    simp only [generateAssetModule, huri]

/-- Instance of C1 (amended) at the id `img!b!c`. -/
theorem generateAssetModule_uri_first_bang_witness :
    (generateAssetModule { id := "img!b!c", path := "/img/c", isAsset := true }).code =
      "module.exports = " ++ JSON.stringify [
        ("uri", JSONValue.str "b!c"),
        ("isStatic", JSONValue.bool true)] ++ ";" :=
  (generateAssetModule_uri_first_bang
    { id := "img!b!c", path := "/img/c", isAsset := true }).1
    ['i', 'm', 'g'] ['b', '!', 'c'] (by decide) (by decide) (by decide)

theorem quoteJSONString_uri : quoteJSONString "uri" = "\"uri\"" := by decide

theorem quoteJSONString_isStatic : quoteJSONString "isStatic" = "\"isStatic\"" := by decide

/-- The generated code written out around the quoted uri. -/
theorem generateAssetModule_code_eq (m : Module) :
    (generateAssetModule m).code =
      "module.exports = \x7b\"uri\":" ++ quoteJSONString (assetUri m.id) ++
        ",\"isStatic\":true\x7d;" := by
  simp only [generateAssetModule, JSON.stringify, JSON.members, JSONValue.stringify,
    quoteJSONString_uri, quoteJSONString_isStatic]
  apply String.ext
  simp [String.data_append]

/-- C2: for an asset module whose id has no `!`, the generated code is
`module.exports = ` followed by the JSON text of the object with the keys
`uri` (the id) and `isStatic` (true), in this order and without white space,
followed by `;`; `sourceCode` is the same string and `sourcePath` is the
module path.  For the id `logo.png` the code is
`module.exports = {"uri":"logo.png","isStatic":true};`. -/
theorem generateAssetModule_plain_id (m : Module) (h : '!' ∉ m.id.data) :
    (generateAssetModule m).code =
      "module.exports = " ++ JSON.stringify [
        ("uri", JSONValue.str m.id),
        ("isStatic", JSONValue.bool true)] ++ ";" ∧
    (generateAssetModule m).code =
      "module.exports = \x7b\"uri\":" ++ quoteJSONString m.id ++ ",\"isStatic\":true\x7d;" ∧
    (generateAssetModule m).sourceCode = (generateAssetModule m).code ∧
    (generateAssetModule m).sourcePath = m.path ∧
    (m.id = "logo.png" →
      (generateAssetModule m).code =
        "module.exports = \x7b\"uri\":\"logo.png\",\"isStatic\":true\x7d;") := by
  have huri : assetUri m.id = m.id := assetUri_no_bang _ h
  refine ⟨?_, ?_, rfl, rfl, ?_⟩
  · simp only [generateAssetModule, huri]
  · rw [generateAssetModule_code_eq, huri]
  · intro hid
    rw [generateAssetModule_code_eq, huri, hid]
    decide

/-- Instance of C2 at the asset `logo.png`. -/
theorem generateAssetModule_plain_id_witness :
    (generateAssetModule { id := "logo.png", path := "/root/img/logo.png", isAsset := true }).code
      = "module.exports = \x7b\"uri\":\"logo.png\",\"isStatic\":true\x7d;" :=
  (generateAssetModule_plain_id
    { id := "logo.png", path := "/root/img/logo.png", isAsset := true }
    (by decide)).2.2.2.2 rfl

/-! ## Construction -/

theorem forEachVerifyRootExists_ok_iff (statSync : StatSync) (roots : List String) :
    forEachVerifyRootExists statSync roots = .ok () ↔
      ∀ root ∈ roots, statSync root = .ok { isDirectory := true } := by
  induction roots with
  | nil => simp [forEachVerifyRootExists]
  | cons root more ih =>
    simp only [forEachVerifyRootExists, verifyRootExists, List.mem_cons, forall_eq_or_imp]
    cases hs : statSync root with
    | error e => simp
    | ok stats =>
      obtain ⟨d⟩ := stats
      cases d <;> simp [ih]

theorem forEachVerifyRootExists_error (statSync : StatSync) (roots : List String)
    (e : JSError) (h : forEachVerifyRootExists statSync roots = .error e) :
    ∃ before root after, roots = before ++ root :: after ∧
      (∀ r ∈ before, statSync r = .ok { isDirectory := true }) ∧
      (statSync root = .error e ∨
        (statSync root = .ok { isDirectory := false } ∧
          e = { name := "AssertionError", message := "Root has to be a valid directory" })) := by
  induction roots with
  | nil => simp [forEachVerifyRootExists] at h
  | cons root more ih =>
    simp only [forEachVerifyRootExists, verifyRootExists] at h
    cases hs : statSync root with
    | error e' =>
      rw [hs] at h
      simp only [Except.error.injEq] at h
      subst h
      exact ⟨[], root, more, rfl, by simp, Or.inl hs⟩
    | ok stats =>
      rw [hs] at h
      obtain ⟨d⟩ := stats
      cases d
      · simp only [Bool.false_eq_true, if_false, Except.error.injEq] at h
        exact ⟨[], root, more, rfl, by simp, Or.inr ⟨hs, h.symm⟩⟩
      · simp only [if_true] at h
        obtain ⟨before, bad, after, hsplit, hbefore, hbad⟩ := ih h
        refine ⟨root :: before, bad, after, by rw [hsplit]; rfl, ?_, hbad⟩
        intro r hr
        rcases List.mem_cons.mp hr with rfl | hr
        · exact hs
        · exact hbefore r hr

/-- C5 (as stated, refuted): a project root that exists but is a regular
file makes the constructor fail with the `AssertionError` raised by `assert`,
not with a `RootNotFoundError`. -/
theorem Packager_new_RootNotFoundError_counterexample :
    (Packager.new sampleStatSync (optionsWithRoots ["/app", "/app/index.js"])).result =
      .error { name := "AssertionError", message := "Root has to be a valid directory" } ∧
    ¬ ∃ e, (Packager.new sampleStatSync (optionsWithRoots ["/app", "/app/index.js"])).result =
        .error e ∧ e.name = "RootNotFoundError" := by
  have h : (Packager.new sampleStatSync (optionsWithRoots ["/app", "/app/index.js"])).result =
      .error { name := "AssertionError", message := "Root has to be a valid directory" } := by
    decide
  refine ⟨h, ?_⟩
  rintro ⟨e, he, hn⟩
  rw [h] at he
  simp only [Except.error.injEq] at he
  subst he
  revert hn
  decide

/-- C5 (amended): when the validated `projectRoots` contain a path that is
missing or is not a directory, construction fails synchronously, before the
`DependencyResolver` and the `Transformer` are created.  The error belongs
to the first offending root of the list (every root before it is an
existing directory): it is the error thrown by `fs.statSync` when that root
cannot be examined, and the `AssertionError` with message
`Root has to be a valid directory` when that root exists but is not a
directory.  Construction gets past root verification only when every listed
root is an existing directory. -/
theorem Packager_new_verifies_roots (statSync : StatSync) (options : RawOptions)
    (opts : Options) (hv : validateOpts options = .ok opts) :
    ((∃ root ∈ opts.projectRoots, statSync root ≠ .ok { isDirectory := true }) →
      ∃ e before root after,
        (Packager.new statSync options).result = .error e ∧
        (Packager.new statSync options).created = [] ∧
        opts.projectRoots = before ++ root :: after ∧
        (∀ r ∈ before, statSync r = .ok { isDirectory := true }) ∧
        (statSync root = .error e ∨
          (statSync root = .ok { isDirectory := false } ∧
            e = { name := "AssertionError",
                  message := "Root has to be a valid directory" }))) ∧
    (((Packager.new statSync options).created ≠ [] ∨
        ∃ packager, (Packager.new statSync options).result = .ok packager) →
      ∀ root ∈ opts.projectRoots, statSync root = .ok { isDirectory := true }) := by
  cases hf : forEachVerifyRootExists statSync opts.projectRoots with
  | error e =>
    obtain ⟨before, root, after, hsplit, hbefore, hbad⟩ :=
      forEachVerifyRootExists_error _ _ _ hf
    refine ⟨fun _ => ⟨e, before, root, after, ?_, ?_, hsplit, hbefore, hbad⟩, ?_⟩
    · simp [Packager.new, hv, hf]
    · simp [Packager.new, hv, hf]
    · intro h
      simp [Packager.new, hv, hf] at h
  | ok u =>
    have hall := (forEachVerifyRootExists_ok_iff statSync opts.projectRoots).mp hf
    refine ⟨?_, fun _ => hall⟩
    rintro ⟨root, hr, hbad⟩
    exact absurd (hall root hr) hbad

/-- Instance of C5 (amended): the root list `/app`, `/missing`. -/
theorem Packager_new_verifies_roots_witness :
    ∃ e before root after,
      (Packager.new sampleStatSync (optionsWithRoots ["/app", "/missing"])).result = .error e ∧
      (Packager.new sampleStatSync (optionsWithRoots ["/app", "/missing"])).created = [] ∧
      ["/app", "/missing"] = before ++ root :: after ∧
      (∀ r ∈ before, sampleStatSync r = .ok { isDirectory := true }) ∧
      (sampleStatSync root = .error e ∨
        (sampleStatSync root = .ok { isDirectory := false } ∧
          e = { name := "AssertionError", message := "Root has to be a valid directory" })) :=
  (Packager_new_verifies_roots sampleStatSync (optionsWithRoots ["/app", "/missing"])
    { projectRoots := ["/app", "/missing"]
      blacklistRE := none
      moduleFormat := "haste"
      polyfillModuleNames := []
      cacheVersion := "1.0"
      resetCache := false
      transformModulePath := none
      nonPersistent := false
      assetRoots := none
      assetExts := ["png"]
      fileWatcher := { handle := 0 } }
    (by decide)).1 ⟨"/missing", by decide, by decide⟩

/-- C6: `projectRoots` must contain at least one existing directory.
Constructing a `Packager` with an empty `projectRoots` list fails at
construction: validation rejects the options, nothing is created and no
`Packager` results.  A `Packager` that has been constructed has at least one
root, and each of its roots is an existing directory. -/
theorem Packager_new_empty_roots_rejected (statSync : StatSync) (options : RawOptions) :
    (options.projectRoots = some [] →
      ∃ e, validateOpts options = .error e ∧
        (Packager.new statSync options).result = .error e ∧
        (Packager.new statSync options).created = []) ∧
    (∀ packager, (Packager.new statSync options).result = .ok packager →
      options.projectRoots = some packager._opts.projectRoots ∧
      packager._opts.projectRoots ≠ [] ∧
      ∀ root ∈ packager._opts.projectRoots, statSync root = .ok { isDirectory := true }) := by
  refine ⟨?_, ?_⟩
  · intro h
    refine ⟨⟨"Error", "Error validating module options: projectRoots must not be empty"⟩,
      ?_, ?_, ?_⟩ <;> simp [Packager.new, validateOpts, h]
  · intro packager h
    cases hr : options.projectRoots with
    | none => simp [Packager.new, validateOpts, hr] at h
    | some roots =>
      cases roots with
      | nil => simp [Packager.new, validateOpts, hr] at h
      | cons root more =>
        cases hw : options.fileWatcher with
        | none => simp [Packager.new, validateOpts, hr, hw] at h
        | some fw =>
          cases hf : forEachVerifyRootExists statSync (root :: more) with
          | error e => simp [Packager.new, validateOpts, hr, hw, hf] at h
          | ok u =>
            simp only [Packager.new, validateOpts, hr, hw, hf, Except.ok.injEq] at h
            subst h
            exact ⟨rfl, by simp,
              (forEachVerifyRootExists_ok_iff statSync (root :: more)).mp hf⟩

/-- Instance of C6: an empty root list, with a file watcher, on the sample
file system. -/
theorem Packager_new_empty_roots_rejected_witness :
    ∃ e, validateOpts (optionsWithRoots []) = .error e ∧
      (Packager.new sampleStatSync (optionsWithRoots [])).result = .error e ∧
      (Packager.new sampleStatSync (optionsWithRoots [])).created = [] :=
  (Packager_new_empty_roots_rejected sampleStatSync (optionsWithRoots [])).1 rfl

/-! ## `_transformModule` and `invalidateFile` -/

/-- C7: for a module with `isAsset` true, `_transformModule` makes no call of
`Transformer.loadFileAndTransform`, and the promise it returns settles with
the generated asset module whose `code` has been replaced by
`wrapModule(module, code)`, whatever the transformer is; for a module with
`isAsset` false it calls `loadFileAndTransform` exactly once, with
`path.resolve(module.path)`. -/
theorem transformModule_asset_bypass (env : Collaborators) (m : Module) :
    (m.isAsset = true →
      ((Packager._transformModule env m).1 ++ (Packager._transformModule env m).2.calls).filter
          Call.isLoadFileAndTransform = [] ∧
      (Packager._transformModule env m).2.calls =
        [Call.wrapModule m (generateAssetModule m).code] ∧
      (Packager._transformModule env m).2.outcome =
        (match env.wrapModule m (generateAssetModule m).code with
          | .error e => .error e
          | .ok code =>
            .ok { code := code
                  sourceCode := (generateAssetModule m).sourceCode
                  sourcePath := (generateAssetModule m).sourcePath }) ∧
      ∀ other : String → Except JSError Transformed,
        Packager._transformModule { env with loadFileAndTransform := other } m =
          Packager._transformModule env m) ∧
    (m.isAsset = false →
      ((Packager._transformModule env m).1 ++ (Packager._transformModule env m).2.calls).filter
          Call.isLoadFileAndTransform =
        [Call.loadFileAndTransform (env.pathResolve m.path)]) := by
  refine ⟨?_, ?_⟩
  · intro h
    refine ⟨?_, ?_, ?_, ?_⟩
    · simp [Packager._transformModule, Packager.transform, h, Call.isLoadFileAndTransform]
    · simp [Packager._transformModule, Packager.transform, h]
    · simp only [Packager._transformModule, Packager.transform, h, if_true]
    · intro other
      simp [Packager._transformModule, Packager.transform, h]
  · intro h
    simp only [Packager._transformModule, Packager.transform, h, Bool.false_eq_true, if_false]
    cases env.loadFileAndTransform (env.pathResolve m.path) <;>
      simp [Call.isLoadFileAndTransform]

/-- Instance of C7: the asset `img!b.png` and the module `a.js`. -/
theorem transformModule_asset_bypass_witness :
    (Packager._transformModule sampleEnv
        { id := "img!b.png", path := "/img/b.png", isAsset := true }).2.calls =
      [Call.wrapModule { id := "img!b.png", path := "/img/b.png", isAsset := true }
        (generateAssetModule { id := "img!b.png", path := "/img/b.png", isAsset := true }).code] ∧
    ((Packager._transformModule sampleEnv { id := "a", path := "a.js", isAsset := false }).1 ++
        (Packager._transformModule sampleEnv
          { id := "a", path := "a.js", isAsset := false }).2.calls).filter
          Call.isLoadFileAndTransform =
      [Call.loadFileAndTransform "/app/a.js"] :=
  ⟨((transformModule_asset_bypass sampleEnv
      { id := "img!b.png", path := "/img/b.png", isAsset := true }).1 rfl).2.1,
    (transformModule_asset_bypass sampleEnv
      { id := "a", path := "a.js", isAsset := false }).2 rfl⟩

/-- C8: `invalidateFile(path)` makes exactly one call, the transformer's
`invalidateFile` with the same path; it calls neither
`Transformer.loadFileAndTransform` nor the resolver. -/
theorem invalidateFile_only_forwards (filePath : String) :
    Packager.invalidateFile filePath = [Call.invalidateFile filePath] ∧
    (Packager.invalidateFile filePath).count (Call.invalidateFile filePath) = 1 ∧
    (Packager.invalidateFile filePath).filter Call.isLoadFileAndTransform = [] ∧
    (Packager.invalidateFile filePath).filter Call.isResolverCall = [] := by
  simp [Packager.invalidateFile, Call.isLoadFileAndTransform, Call.isResolverCall]

/-! ## `setNativeProps` -/

/-- C10: `setNativeProps` calls `RCTUIManager.updateView` exactly once, with
the node handle and the view class name of the component; the props sent are
the flattened style when `nativeProps` has no key other than `style`,
`nativeProps` itself when it has another key and the flattened style is
empty (a falsy value, `!style`), and `mergeFast(nativeProps, style)` when it
has another key and the flattened style has a value. -/
theorem setNativeProps_props (flattenStyle : JSValue → JSValue)
    (mergeFast : JSValue → JSValue → JSValue) (self : NativeComponent)
    (nativeProps : List (String × JSValue)) :
    ∃ props,
      setNativeProps flattenStyle mergeFast self nativeProps =
        [UIManagerCall.updateView self.nodeHandle self.uiViewClassName props] ∧
      ((∀ kv ∈ nativeProps, kv.1 = "style") →
        props = flattenStyle (getProperty nativeProps "style")) ∧
      ((∃ kv ∈ nativeProps, kv.1 ≠ "style") →
        (flattenStyle (getProperty nativeProps "style")).truthy = false →
        props = JSValue.object nativeProps) ∧
      ((∃ kv ∈ nativeProps, kv.1 ≠ "style") →
        (flattenStyle (getProperty nativeProps "style")).truthy = true →
        props = mergeFast (JSValue.object nativeProps)
          (flattenStyle (getProperty nativeProps "style"))) := by
  have hloop : hasOnlyStyle nativeProps = true ↔ ∀ kv ∈ nativeProps, kv.1 = "style" := by
    induction nativeProps with
    | nil => simp [hasOnlyStyle]
    | cons kv more ih =>
      simp only [hasOnlyStyle, List.mem_cons, forall_eq_or_imp]
      by_cases hk : kv.1 = "style"
      · simp [hk, ih]
      · simp [hk]
  refine ⟨_, rfl, ?_, ?_, ?_⟩
  · intro h
    simp [hloop.mpr h]
  · rintro ⟨kv, hkv, hne⟩ hfalsy
    have hnot : hasOnlyStyle nativeProps = false := by
      cases hh : hasOnlyStyle nativeProps with
      | false => rfl
      | true => exact absurd (hloop.mp hh kv hkv) hne
    simp [hnot, hfalsy]
  · rintro ⟨kv, hkv, hne⟩ htruthy
    have hnot : hasOnlyStyle nativeProps = false := by
      cases hh : hasOnlyStyle nativeProps with
      | false => rfl
      | true => exact absurd (hloop.mp hh kv hkv) hne
    simp [hnot, htruthy]

/-! ## `Promise.all` -/

theorem collectSlots_eq_some {α : Type} (slots : List (Option α)) (vs : List α) :
    collectSlots slots = some vs ↔ slots = vs.map some := by
  induction slots generalizing vs with
  | nil =>
    cases vs <;> simp [collectSlots]
  | cons s more ih =>
    cases s with
    | none => cases vs <;> simp [collectSlots]
    | some v =>
      cases hc : collectSlots more with
      | none =>
        cases vs with
        | nil => simp [collectSlots, hc]
        | cons w ws =>
          simp only [collectSlots, hc, List.map_cons, List.cons.injEq, Option.some.injEq]
          constructor
          · intro h
            exact absurd h (by simp)
          · rintro ⟨_, hmore⟩
            rw [(ih ws).mpr hmore] at hc
            exact absurd hc (by simp)
      | some us =>
        have hus := (ih us).mp hc
        cases vs with
        | nil => simp [collectSlots, hc]
        | cons w ws =>
          simp only [collectSlots, hc, Option.some.injEq, List.cons.injEq, List.map_cons]
          constructor
          · rintro ⟨rfl, rfl⟩
            exact ⟨rfl, hus⟩
          · rintro ⟨rfl, hmore⟩
            refine ⟨rfl, ?_⟩
            have := (ih ws).mpr hmore
            rw [hc] at this
            exact Option.some.inj this

theorem collectSlots_eq_none {α : Type} (slots : List (Option α)) :
    collectSlots slots = none ↔ none ∈ slots := by
  induction slots with
  | nil => simp [collectSlots]
  | cons s more ih =>
    cases s with
    | none => simp [collectSlots]
    | some v =>
      cases hc : collectSlots more with
      | none => simp [collectSlots, hc, ih.mp hc]
      | some us =>
        have : none ∉ more := fun hm => by
          rw [ih.mpr hm] at hc
          exact absurd hc (by simp)
        simp [collectSlots, hc, this]

theorem outcomes_of_collectSlots {α : Type} (ds : List (Deferred α))
    (slots : List (Option α)) (vs : List α) (hlen : slots.length = ds.length)
    (hsound : ∀ (i : Nat) (v : α), slots[i]? = some (some v) → ∃ d : Deferred α, ds[i]? = some d ∧ d.outcome = .ok v)
    (hc : collectSlots slots = some vs) :
    ds.map (fun d => d.outcome) = vs.map Except.ok := by
  have hslots := (collectSlots_eq_some slots vs).mp hc
  subst hslots
  apply List.ext_getElem?
  intro j
  simp only [List.getElem?_map]
  cases hv : vs[j]? with
  | none =>
    have hj : vs.length ≤ j := List.getElem?_eq_none_iff.mp hv
    have hd : ds[j]? = none := by
      apply List.getElem?_eq_none_iff.mpr
      rw [← hlen, List.length_map]
      exact hj
    simp [hd]
  | some v =>
    obtain ⟨d, hd, ho⟩ := hsound j v (by simp [List.getElem?_map, hv])
    simp [hd, ho]

theorem getElem?_lt_length {α : Type} {l : List α} {i : Nat} {a : α} (h : l[i]? = some a) :
    i < l.length := by
  obtain ⟨hlt, _⟩ := List.getElem?_eq_some.mp h
  exact hlt

theorem AllProgress.inv_start {α : Type} (ds : List (Deferred α)) :
    AllProgress.Inv ds (AllProgress.start ds) := by
  have hsound : ∀ (i : Nat) (v : α),
      (List.replicate ds.length (none : Option α))[i]? = some (some v) →
        ∃ d : Deferred α, ds[i]? = some d ∧ d.outcome = .ok v := by
    intro i v h
    rw [List.getElem?_replicate] at h
    split at h <;> simp at h
  refine ⟨by simp [AllProgress.start], hsound, ?_, ?_, ?_, ?_, ?_⟩
  · intro i d v hi
    simp [AllProgress.start] at hi
  · intro vs h
    simp only [AllProgress.start] at h
    cases hc : collectSlots (List.replicate ds.length (none : Option α)) with
    | none => simp [hc] at h
    | some us =>
      simp only [hc, PromiseState.fulfilled.injEq] at h
      subst h
      exact outcomes_of_collectSlots ds _ us (by simp) hsound hc
  · intro h
    simp only [AllProgress.start] at h ⊢
    cases hc : collectSlots (List.replicate ds.length (none : Option α)) with
    | none => rfl
    | some us => simp [hc] at h
  · intro _ i hi
    simp [AllProgress.start] at hi
  · intro e h
    simp only [AllProgress.start] at h
    cases hc : collectSlots (List.replicate ds.length (none : Option α)) <;> simp [hc] at h

theorem AllProgress.settle_error {α : Type} (ds : List (Deferred α)) (p : AllProgress α)
    (i : Nat) (d : Deferred α) (e : JSError) (hmem : i ∉ p.settled) (hd : ds[i]? = some d)
    (ho : d.outcome = .error e) :
    AllProgress.settle ds p i =
      { settled := i :: p.settled
        slots := p.slots
        calls := p.calls ++ d.calls
        state :=
          match p.state with
          | .pending => .rejected e
          | s => s } := by
  simp [AllProgress.settle, hmem, hd, ho]

theorem AllProgress.settle_ok {α : Type} (ds : List (Deferred α)) (p : AllProgress α)
    (i : Nat) (d : Deferred α) (v : α) (hmem : i ∉ p.settled) (hd : ds[i]? = some d)
    (ho : d.outcome = .ok v) :
    AllProgress.settle ds p i =
      { settled := i :: p.settled
        slots := p.slots.set i (some v)
        calls := p.calls ++ d.calls
        state :=
          match p.state with
          | .pending =>
            match collectSlots (p.slots.set i (some v)) with
            | some vs => .fulfilled vs
            | none => .pending
          | s => s } := by
  simp [AllProgress.settle, hmem, hd, ho]

theorem AllProgress.inv_settle {α : Type} (ds : List (Deferred α)) (p : AllProgress α)
    (i : Nat) (hp : AllProgress.Inv ds p) :
    AllProgress.Inv ds (AllProgress.settle ds p i) := by
  by_cases hmem : i ∈ p.settled
  · simpa [AllProgress.settle, hmem] using hp
  cases hd : ds[i]? with
  | none => simpa [AllProgress.settle, hmem, hd] using hp
  | some d =>
    have hi : i < p.slots.length := by
      rw [hp.length_slots]
      exact getElem?_lt_length hd
    cases ho : d.outcome with
    | error e =>
      rw [AllProgress.settle_error ds p i d e hmem hd ho]
      refine ⟨hp.length_slots, hp.slot_sound, ?_, ?_, ?_, ?_, ?_⟩
      · intro j d' v hj hd' ho'
        rcases List.mem_cons.mp hj with rfl | hj
        · rw [hd] at hd'
          cases hd'
          rw [ho] at ho'
          cases ho'
        · exact hp.slot_filled j d' v hj hd' ho'
      · intro vs h
        cases hs : p.state with
        | pending => simp [hs] at h
        | fulfilled us =>
          simp only [hs, PromiseState.fulfilled.injEq] at h
          subst h
          exact hp.fulfilled_sound us hs
        | rejected e' => simp [hs] at h
      · intro h
        cases hs : p.state <;> simp [hs] at h
      · intro h
        cases hs : p.state <;> simp [hs] at h
      · intro e' h
        cases hs : p.state with
        | pending =>
          simp only [hs, PromiseState.rejected.injEq] at h
          subst h
          exact ⟨d, List.getElem?_mem hd, ho⟩
        | fulfilled us => simp [hs] at h
        | rejected e'' =>
          simp only [hs, PromiseState.rejected.injEq] at h
          subst h
          exact hp.rejected_sound _ hs
    | ok v =>
      rw [AllProgress.settle_ok ds p i d v hmem hd ho]
      have hsound : ∀ (j : Nat) (w : α), (p.slots.set i (some v))[j]? = some (some w) →
          ∃ d : Deferred α, ds[j]? = some d ∧ d.outcome = .ok w := by
        intro j w h
        by_cases hij : i = j
        · subst hij
          rw [List.getElem?_set_self hi] at h
          simp only [Option.some.injEq] at h
          subst h
          exact ⟨d, hd, ho⟩
        · rw [List.getElem?_set_ne hij] at h
          exact hp.slot_sound j w h
      refine ⟨by simp [hp.length_slots], hsound, ?_, ?_, ?_, ?_, ?_⟩
      · intro j d' w hj hd' ho'
        rcases List.mem_cons.mp hj with rfl | hj
        · rw [hd] at hd'
          cases hd'
          rw [ho] at ho'
          cases ho'
          exact List.getElem?_set_self hi
        · have hij : i ≠ j := fun h => hmem (h ▸ hj)
          rw [List.getElem?_set_ne hij]
          exact hp.slot_filled j d' w hj hd' ho'
      · intro vs h
        cases hs : p.state with
        | pending =>
          simp only [hs] at h
          cases hc : collectSlots (p.slots.set i (some v)) with
          | none => simp [hc] at h
          | some us =>
            simp only [hc, PromiseState.fulfilled.injEq] at h
            subst h
            exact outcomes_of_collectSlots ds _ us (by simp [hp.length_slots]) hsound hc
        | fulfilled us =>
          simp only [hs, PromiseState.fulfilled.injEq] at h
          subst h
          exact hp.fulfilled_sound us hs
        | rejected e' => simp [hs] at h
      · intro h
        cases hs : p.state with
        | pending =>
          simp only [hs] at h
          cases hc : collectSlots (p.slots.set i (some v)) with
          | none => rfl
          | some us => simp [hc] at h
        | fulfilled us => simp [hs] at h
        | rejected e' => simp [hs] at h
      · intro h
        have hs : p.state = .pending := by
          cases hs : p.state <;> simp [hs] at h
          rfl
        intro j hj d' hd'
        rcases List.mem_cons.mp hj with rfl | hj
        · rw [hd] at hd'
          cases hd'
          exact ⟨v, ho⟩
        · exact hp.pending_ok hs j hj d' hd'
      · intro e h
        cases hs : p.state with
        | pending =>
          simp only [hs] at h
          cases hc : collectSlots (p.slots.set i (some v)) <;> simp [hc] at h
        | fulfilled us => simp [hs] at h
        | rejected e' =>
          simp only [hs, PromiseState.rejected.injEq] at h
          subst h
          exact hp.rejected_sound _ hs

theorem AllProgress.inv_foldl {α : Type} (ds : List (Deferred α)) (schedule : List Nat)
    (p : AllProgress α) (hp : AllProgress.Inv ds p) :
    AllProgress.Inv ds (schedule.foldl (AllProgress.settle ds) p) := by
  induction schedule generalizing p with
  | nil => exact hp
  | cons i more ih => exact ih _ (AllProgress.inv_settle ds p i hp)

theorem Promise.all_inv {α : Type} (ds : List (Deferred α)) (schedule : List Nat) :
    AllProgress.Inv ds (Promise.all ds schedule) :=
  AllProgress.inv_foldl ds schedule _ (AllProgress.inv_start ds)

theorem AllProgress.settled_settle_of_mem {α : Type} (ds : List (Deferred α))
    (p : AllProgress α) (i j : Nat) (hj : j ∈ p.settled) :
    j ∈ (AllProgress.settle ds p i).settled := by
  by_cases hmem : i ∈ p.settled
  · simpa [AllProgress.settle, hmem] using hj
  · cases hd : ds[i]? with
    | none => simpa [AllProgress.settle, hmem, hd] using hj
    | some d =>
      cases ho : d.outcome with
      | error e =>
        rw [AllProgress.settle_error ds p i d e hmem hd ho]
        exact List.mem_cons_of_mem _ hj
      | ok v =>
        rw [AllProgress.settle_ok ds p i d v hmem hd ho]
        exact List.mem_cons_of_mem _ hj

theorem AllProgress.settled_settle_self {α : Type} (ds : List (Deferred α))
    (p : AllProgress α) (i : Nat) (hi : i < ds.length) :
    i ∈ (AllProgress.settle ds p i).settled := by
  by_cases hmem : i ∈ p.settled
  · simp [AllProgress.settle, hmem]
  · have hd : ds[i]? = some ds[i] := List.getElem?_eq_getElem hi
    cases ho : (ds[i]).outcome with
    | error e =>
      rw [AllProgress.settle_error ds p i _ e hmem hd ho]
      exact List.mem_cons_self _ _
    | ok v =>
      rw [AllProgress.settle_ok ds p i _ v hmem hd ho]
      exact List.mem_cons_self _ _

theorem AllProgress.settled_foldl_of_mem {α : Type} (ds : List (Deferred α))
    (schedule : List Nat) (p : AllProgress α) (j : Nat) (hj : j ∈ p.settled) :
    j ∈ (schedule.foldl (AllProgress.settle ds) p).settled := by
  induction schedule generalizing p with
  | nil => exact hj
  | cons i more ih => exact ih _ (AllProgress.settled_settle_of_mem ds p i j hj)

theorem AllProgress.settled_foldl {α : Type} (ds : List (Deferred α))
    (schedule : List Nat) (p : AllProgress α) (j : Nat) (hj : j ∈ schedule)
    (hlt : j < ds.length) :
    j ∈ (schedule.foldl (AllProgress.settle ds) p).settled := by
  induction schedule generalizing p with
  | nil => simp at hj
  | cons i more ih =>
    rcases List.mem_cons.mp hj with rfl | hj
    · exact AllProgress.settled_foldl_of_mem ds more _ _
        (AllProgress.settled_settle_self ds p _ hlt)
    · exact ih _ hj

theorem Promise.all_settled {α : Type} (ds : List (Deferred α)) (schedule : List Nat)
    (j : Nat) (hj : j ∈ schedule) (hlt : j < ds.length) :
    j ∈ (Promise.all ds schedule).settled :=
  AllProgress.settled_foldl ds schedule _ j hj hlt

/-- A combined promise that is fulfilled carries the values of its input
promises, index by index, and every input promise was fulfilled. -/
theorem Promise.all_fulfilled_only {α : Type} (ds : List (Deferred α))
    (schedule : List Nat) (vs : List α)
    (h : (Promise.all ds schedule).state = .fulfilled vs) :
    ds.map (fun d => d.outcome) = vs.map Except.ok :=
  (Promise.all_inv ds schedule).fulfilled_sound vs h

/-- As soon as one input promise has settled with a rejection, the combined
promise is rejected. -/
theorem Promise.all_rejected {α : Type} (ds : List (Deferred α)) (schedule : List Nat)
    (i : Nat) (d : Deferred α) (e : JSError) (hi : i ∈ schedule) (hd : ds[i]? = some d)
    (ho : d.outcome = .error e) :
    ∃ e', (Promise.all ds schedule).state = .rejected e' := by
  have inv := Promise.all_inv ds schedule
  have hset := Promise.all_settled ds schedule i hi (getElem?_lt_length hd)
  cases hs : (Promise.all ds schedule).state with
  | pending =>
    obtain ⟨v, hv⟩ := inv.pending_ok hs i hset d hd
    rw [ho] at hv
    cases hv
  | fulfilled vs =>
    have hmap := inv.fulfilled_sound vs hs
    have : (ds.map (fun d => d.outcome))[i]? = (vs.map Except.ok)[i]? := by rw [hmap]
    simp only [List.getElem?_map, hd, Option.map_some', ho] at this
    cases hv : vs[i]? <;> simp [hv] at this
  | rejected e' => exact ⟨e', rfl⟩

/-- When every input promise is fulfilled and all of them have settled, the
combined promise is fulfilled with the values in the order of the input
array, whatever the order of settlement. -/
theorem Promise.all_fulfilled {α : Type} (ds : List (Deferred α)) (schedule : List Nat)
    (vs : List α) (hok : ds.map (fun d => d.outcome) = vs.map Except.ok)
    (hall : ∀ i, i < ds.length → i ∈ schedule) :
    (Promise.all ds schedule).state = .fulfilled vs := by
  have inv := Promise.all_inv ds schedule
  have hval : ∀ (i : Nat) (d : Deferred α), ds[i]? = some d → ∃ v, d.outcome = .ok v := by
    intro i d hd
    have : (ds.map (fun d => d.outcome))[i]? = (vs.map Except.ok)[i]? := by rw [hok]
    simp only [List.getElem?_map, hd, Option.map_some'] at this
    cases hv : vs[i]? with
    | none => simp [hv] at this
    | some v =>
      simp only [hv, Option.map_some', Option.some.injEq] at this
      exact ⟨v, this⟩
  cases hs : (Promise.all ds schedule).state with
  | pending =>
    have hnone := (collectSlots_eq_none _).mp (inv.pending_open hs)
    obtain ⟨j, hj⟩ := List.mem_iff_getElem?.mp hnone
    have hjlt : j < ds.length := by
      rw [← inv.length_slots]
      exact getElem?_lt_length hj
    obtain ⟨v, hv⟩ := hval j ds[j] (List.getElem?_eq_getElem hjlt)
    have hfilled := inv.slot_filled j ds[j] v
      (Promise.all_settled ds schedule j (hall j hjlt) hjlt)
      (List.getElem?_eq_getElem hjlt) hv
    rw [hj] at hfilled
    simp at hfilled
  | rejected e =>
    obtain ⟨d, hd, he⟩ := inv.rejected_sound e hs
    obtain ⟨j, hj⟩ := List.mem_iff_getElem?.mp hd
    obtain ⟨v, hv⟩ := hval j d hj
    rw [he] at hv
    cases hv
  | fulfilled us =>
    have hmap := inv.fulfilled_sound us hs
    rw [hok] at hmap
    have hinj : Function.Injective (Except.ok : α → Except JSError α) := by
      intro a b hab
      cases hab
      rfl
    rw [List.map_injective_iff.mpr hinj hmap]

/-! ## `Packager.package` -/

theorem transformModule_outcome_ok (env : Collaborators) (d : Module)
    (transformed : Transformed) (code : String)
    (ht : (Packager.transform env d).2 = .ok transformed)
    (hw : env.wrapModule d transformed.code = .ok code) :
    (Packager._transformModule env d).2.outcome =
      .ok { code := code
            sourceCode := transformed.sourceCode
            sourcePath := transformed.sourcePath } := by
  simp [Packager._transformModule, ht, hw]

theorem transformModule_outcome_error (env : Collaborators) (d : Module) (e : JSError)
    (h : (Packager.transform env d).2 = .error e ∨
      ∃ transformed, (Packager.transform env d).2 = .ok transformed ∧
        env.wrapModule d transformed.code = .error e) :
    (Packager._transformModule env d).2.outcome = .error e := by
  rcases h with h | ⟨transformed, ht, hw⟩
  · simp [Packager._transformModule, h]
  · simp [Packager._transformModule, ht, hw]

theorem transformModule_outcome_ok_inv (env : Collaborators) (d : Module) (x : Transformed)
    (h : (Packager._transformModule env d).2.outcome = .ok x) :
    ∃ transformed code, (Packager.transform env d).2 = .ok transformed ∧
      env.wrapModule d transformed.code = .ok code := by
  cases ht : (Packager.transform env d).2 with
  | error e => simp [Packager._transformModule, ht] at h
  | ok transformed =>
    cases hw : env.wrapModule d transformed.code with
    | error e => simp [Packager._transformModule, ht, hw] at h
    | ok code => exact ⟨transformed, code, rfl, hw⟩

theorem foldl_addModule (ts : List Transformed) (p : Package) :
    ts.foldl (fun p transformed =>
        p.addModule transformed.code transformed.sourceCode transformed.sourcePath) p =
      { sourceMapUrl := p.sourceMapUrl
        calls := p.calls ++ ts.map (fun transformed =>
          PackageCall.addModule transformed.code transformed.sourceCode
            transformed.sourcePath) } := by
  induction ts generalizing p with
  | nil => simp
  | cons t more ih =>
    rw [List.foldl_cons, ih]
    simp [Package.addModule]

theorem package_getDependencies_error (env : Collaborators) (main : String)
    (runModule : Bool) (sourceMapUrl : String) (isDev : Bool) (schedule : List Nat)
    (e : JSError) (h : env.getDependencies main isDev = .error e) :
    (Packager.package env main runModule sourceMapUrl isDev schedule).result = .rejected e ∧
    (Packager.package env main runModule sourceMapUrl isDev schedule).ppackage =
      Package.new sourceMapUrl := by
  simp [Packager.package, Packager.getDependencies, h]

theorem package_not_fulfilled (env : Collaborators) (main : String)
    (runModule : Bool) (sourceMapUrl : String) (isDev : Bool) (schedule : List Nat)
    (result : DependencyResult) (h : env.getDependencies main isDev = .ok result)
    (hs : ∀ ts, (Promise.all ((result.dependencies.map (Packager._transformModule env)).map
      Prod.snd) schedule).state ≠ .fulfilled ts) :
    (Packager.package env main runModule sourceMapUrl isDev schedule).result =
      (match (Promise.all ((result.dependencies.map (Packager._transformModule env)).map
          Prod.snd) schedule).state with
        | .rejected e => .rejected e
        | _ => .pending) ∧
    (Packager.package env main runModule sourceMapUrl isDev schedule).ppackage =
      { sourceMapUrl := sourceMapUrl
        calls := [PackageCall.setMainModuleId result.mainModuleId] } := by
  simp only [Packager.package, Packager.getDependencies, h]
  cases hst : (Promise.all ((result.dependencies.map (Packager._transformModule env)).map
      Prod.snd) schedule).state with
  | fulfilled ts => exact absurd hst (hs ts)
  | pending => simp [Package.new, Package.setMainModuleId]
  | rejected e => simp [Package.new, Package.setMainModuleId]

theorem package_fulfilled (env : Collaborators) (main : String)
    (runModule : Bool) (sourceMapUrl : String) (isDev : Bool) (schedule : List Nat)
    (result : DependencyResult) (ts : List Transformed)
    (h : env.getDependencies main isDev = .ok result)
    (hs : (Promise.all ((result.dependencies.map (Packager._transformModule env)).map
      Prod.snd) schedule).state = .fulfilled ts) :
    (Packager.package env main runModule sourceMapUrl isDev schedule).result =
      .fulfilled (Packager.package env main runModule sourceMapUrl isDev schedule).ppackage ∧
    (Packager.package env main runModule sourceMapUrl isDev schedule).ppackage =
      { sourceMapUrl := sourceMapUrl
        calls := PackageCall.setMainModuleId result.mainModuleId ::
          (ts.map (fun transformed =>
            PackageCall.addModule transformed.code transformed.sourceCode
              transformed.sourcePath) ++ [PackageCall.finalize runModule]) } := by
  simp only [Packager.package, Packager.getDependencies, h, hs, foldl_addModule]
  simp [Package.new, Package.setMainModuleId, Package.finalize]

/-- C3: when the resolver returns the dependency list `d_1..d_n`, the
transform of each `d_i` succeeds with `t d_i`, its wrapping succeeds with
`w d_i`, and every transform has completed, `package` calls `addModule`
exactly `n` times and the `i`-th call receives
`(w d_i, (t d_i).sourceCode, (t d_i).sourcePath)`: dependency-list order, for
every order `schedule` in which the transforms complete. -/
theorem package_adds_modules_in_dependency_order (env : Collaborators) (main : String)
    (runModule : Bool) (sourceMapUrl : String) (isDev : Bool) (schedule : List Nat)
    (result : DependencyResult) (t : Module → Transformed) (w : Module → String)
    (hdeps : env.getDependencies main isDev = .ok result)
    (ht : ∀ d ∈ result.dependencies, (Packager.transform env d).2 = .ok (t d))
    (hw : ∀ d ∈ result.dependencies, env.wrapModule d (t d).code = .ok (w d))
    (hsched : ∀ i, i < result.dependencies.length → i ∈ schedule) :
    (Packager.package env main runModule sourceMapUrl isDev schedule).ppackage.calls.filter
        PackageCall.isAddModule =
      result.dependencies.map (fun d =>
        PackageCall.addModule (w d) (t d).sourceCode (t d).sourcePath) ∧
    ((Packager.package env main runModule sourceMapUrl isDev schedule).ppackage.calls.filter
        PackageCall.isAddModule).length = result.dependencies.length ∧
    (Packager.package env main runModule sourceMapUrl isDev schedule).result =
      .fulfilled (Packager.package env main runModule sourceMapUrl isDev schedule).ppackage := by
  have hout : ((result.dependencies.map (Packager._transformModule env)).map Prod.snd).map
      (fun d => d.outcome) =
      (result.dependencies.map (fun d =>
        ({ code := w d
           sourceCode := (t d).sourceCode
           sourcePath := (t d).sourcePath } : Transformed))).map Except.ok := by
    simp only [List.map_map]
    apply List.map_congr_left
    intro d hd
    simp [transformModule_outcome_ok env d (t d) (w d) (ht d hd) (hw d hd)]
  have hstate := Promise.all_fulfilled _ schedule _ hout (by simpa using hsched)
  obtain ⟨hres, hpkg⟩ :=
    package_fulfilled env main runModule sourceMapUrl isDev schedule result _ hdeps hstate
  have hfilter :
      (Packager.package env main runModule sourceMapUrl isDev schedule).ppackage.calls.filter
        PackageCall.isAddModule =
      result.dependencies.map (fun d =>
        PackageCall.addModule (w d) (t d).sourceCode (t d).sourcePath) := by
    rw [hpkg]
    simp only [List.filter_cons, PackageCall.isAddModule, List.filter_append,
      List.filter_nil, List.append_nil, List.map_map]
    simp only [Bool.false_eq_true, if_false, Function.comp_def]
    rw [List.append_nil]
    apply List.filter_eq_self.mpr
    intro c hc
    obtain ⟨d, _, rfl⟩ := List.mem_map.mp hc
    rfl
  refine ⟨hfilter, ?_, hres⟩
  rw [hfilter, List.length_map]

/-- Instance of C3: the three sample modules, whose transforms complete in
the order third, first, second. -/
theorem package_adds_modules_in_dependency_order_witness :
    (Packager.package sampleEnv "a.js" true "a.map" false [2, 0, 1]).ppackage.calls.filter
        PackageCall.isAddModule =
      sampleResult.dependencies.map (fun d =>
        PackageCall.addModule (sampleWrapped d) (sampleTransformed d).sourceCode
          (sampleTransformed d).sourcePath) :=
  (package_adds_modules_in_dependency_order sampleEnv "a.js" true "a.map" false [2, 0, 1]
    sampleResult sampleTransformed sampleWrapped rfl
    (by decide) (by decide) (by decide)).1

/-- C4: `package` is fail-fast.  When `getDependencies` fails, `package`
rejects with that error and no method of the `Package` has been called.
When the transform or the wrapping of a module of the dependency list has
failed (its promise settled, index in `schedule`), `package` rejects and
neither `addModule` nor `finalize` has been called.  A `Package` is returned
only when `getDependencies`, and the transform and the wrapping of every
module, succeeded. -/
theorem package_fail_fast (env : Collaborators) (main : String) (runModule : Bool)
    (sourceMapUrl : String) (isDev : Bool) (schedule : List Nat) :
    (∀ e, env.getDependencies main isDev = .error e →
      (Packager.package env main runModule sourceMapUrl isDev schedule).result = .rejected e ∧
      (Packager.package env main runModule sourceMapUrl isDev schedule).ppackage.calls = []) ∧
    (∀ (result : DependencyResult) (i : Nat) (d : Module) (e : JSError),
      env.getDependencies main isDev = .ok result →
      i ∈ schedule → result.dependencies[i]? = some d →
      ((Packager.transform env d).2 = .error e ∨
        ∃ transformed, (Packager.transform env d).2 = .ok transformed ∧
          env.wrapModule d transformed.code = .error e) →
      (∃ e', (Packager.package env main runModule sourceMapUrl isDev schedule).result =
        .rejected e') ∧
      (Packager.package env main runModule sourceMapUrl isDev schedule).ppackage.calls.filter
        (fun c => c.isAddModule || c.isFinalize) = []) ∧
    (∀ pkg, (Packager.package env main runModule sourceMapUrl isDev schedule).result =
        .fulfilled pkg →
      ∃ result, env.getDependencies main isDev = .ok result ∧
        ∀ d ∈ result.dependencies, ∃ transformed code,
          (Packager.transform env d).2 = .ok transformed ∧
          env.wrapModule d transformed.code = .ok code) := by
  refine ⟨?_, ?_, ?_⟩
  · intro e h
    obtain ⟨hres, hpkg⟩ :=
      package_getDependencies_error env main runModule sourceMapUrl isDev schedule e h
    exact ⟨hres, by rw [hpkg]; rfl⟩
  · intro result i d e hdeps hi hd hfail
    have hout := transformModule_outcome_error env d e hfail
    have hd' : ((result.dependencies.map (Packager._transformModule env)).map Prod.snd)[i]? =
        some (Packager._transformModule env d).2 := by
      simp [List.getElem?_map, hd]
    obtain ⟨e', he'⟩ := Promise.all_rejected _ schedule i _ e hi hd' hout
    obtain ⟨hres, hpkg⟩ :=
      package_not_fulfilled env main runModule sourceMapUrl isDev schedule result hdeps
        (by intro ts hts; rw [he'] at hts; cases hts)
    refine ⟨⟨e', ?_⟩, ?_⟩
    · rw [hres, he']
    · rw [hpkg]
      rfl
  · intro pkg h
    cases hdeps : env.getDependencies main isDev with
    | error e =>
      rw [(package_getDependencies_error env main runModule sourceMapUrl isDev schedule e
        hdeps).1] at h
      cases h
    | ok result =>
      refine ⟨result, rfl, ?_⟩
      cases hst : (Promise.all ((result.dependencies.map (Packager._transformModule env)).map
          Prod.snd) schedule).state with
      | pending =>
        rw [(package_not_fulfilled env main runModule sourceMapUrl isDev schedule result hdeps
          (by intro ts hts; rw [hst] at hts; cases hts)).1, hst] at h
        cases h
      | rejected e =>
        rw [(package_not_fulfilled env main runModule sourceMapUrl isDev schedule result hdeps
          (by intro ts hts; rw [hst] at hts; cases hts)).1, hst] at h
        cases h
      | fulfilled ts =>
        have hmap := Promise.all_fulfilled_only _ schedule ts hst
        intro d hd
        obtain ⟨j, hj⟩ := List.mem_iff_getElem?.mp hd
        have hget : (((result.dependencies.map (Packager._transformModule env)).map
            Prod.snd).map (fun d => d.outcome))[j]? = (ts.map Except.ok)[j]? := by rw [hmap]
        simp only [List.getElem?_map, hj, Option.map_some'] at hget
        cases hv : ts[j]? with
        | none => simp [hv] at hget
        | some x =>
          simp only [hv, Option.map_some', Option.some.injEq] at hget
          exact transformModule_outcome_ok_inv env d x hget

/-- Instance of C4: the transform of the third sample module fails and is
the first to complete. -/
theorem package_fail_fast_witness :
    (∃ e', (Packager.package failingEnv "a.js" true "a.map" false [2, 0, 1]).result =
      .rejected e') ∧
    (Packager.package failingEnv "a.js" true "a.map" false [2, 0, 1]).ppackage.calls.filter
      (fun c => c.isAddModule || c.isFinalize) = [] :=
  (package_fail_fast failingEnv "a.js" true "a.map" false [2, 0, 1]).2.1
    sampleResult 2 { id := "c", path := "c.js", isAsset := false }
    { name := "SyntaxError", message := "c.js" } rfl (by decide) rfl (Or.inl rfl)

/-- C9: in every successful `package` call the returned `Package` is the
`ppackage` object constructed with the given `sourceMapUrl`, and the calls
it has received are: `setMainModuleId` once, first, with the `mainModuleId`
of the dependency result; then `addModule` calls only, one for each
dependency; then `finalize` once, last, with `runMainModule` equal to
`runModule`. -/
theorem package_success_call_sequence (env : Collaborators) (main : String)
    (runModule : Bool) (sourceMapUrl : String) (isDev : Bool) (schedule : List Nat)
    (pkg : Package)
    (h : (Packager.package env main runModule sourceMapUrl isDev schedule).result =
      .fulfilled pkg) :
    pkg = (Packager.package env main runModule sourceMapUrl isDev schedule).ppackage ∧
    pkg.sourceMapUrl = sourceMapUrl ∧
    ∃ result adds, env.getDependencies main isDev = .ok result ∧
      pkg.calls = PackageCall.setMainModuleId result.mainModuleId ::
        (adds ++ [PackageCall.finalize runModule]) ∧
      (∀ c ∈ adds, c.isAddModule = true) ∧
      adds.length = result.dependencies.length ∧
      pkg.calls.filter PackageCall.isSetMainModuleId =
        [PackageCall.setMainModuleId result.mainModuleId] ∧
      pkg.calls.filter PackageCall.isFinalize = [PackageCall.finalize runModule] := by
  cases hdeps : env.getDependencies main isDev with
  | error e =>
    rw [(package_getDependencies_error env main runModule sourceMapUrl isDev schedule e
      hdeps).1] at h
    cases h
  | ok result =>
    cases hst : (Promise.all ((result.dependencies.map (Packager._transformModule env)).map
        Prod.snd) schedule).state with
    | pending =>
      rw [(package_not_fulfilled env main runModule sourceMapUrl isDev schedule result hdeps
        (by intro ts hts; rw [hst] at hts; cases hts)).1, hst] at h
      cases h
    | rejected e =>
      rw [(package_not_fulfilled env main runModule sourceMapUrl isDev schedule result hdeps
        (by intro ts hts; rw [hst] at hts; cases hts)).1, hst] at h
      cases h
    | fulfilled ts =>
      obtain ⟨hres, hpkg⟩ :=
        package_fulfilled env main runModule sourceMapUrl isDev schedule result ts hdeps hst
      rw [hres] at h
      simp only [PromiseState.fulfilled.injEq] at h
      have hlen : ts.length = result.dependencies.length := by
        have := congrArg List.length (Promise.all_fulfilled_only _ schedule ts hst)
        simpa using this.symm
      have hadds : ∀ c ∈ ts.map (fun transformed =>
          PackageCall.addModule transformed.code transformed.sourceCode
            transformed.sourcePath), c.isAddModule = true := by
        intro c hc
        obtain ⟨x, _, rfl⟩ := List.mem_map.mp hc
        rfl
      have hcalls : pkg.calls = PackageCall.setMainModuleId result.mainModuleId ::
          (ts.map (fun transformed =>
            PackageCall.addModule transformed.code transformed.sourceCode
              transformed.sourcePath) ++ [PackageCall.finalize runModule]) := by
        rw [← h, hpkg]
      refine ⟨h.symm, by rw [← h, hpkg], result, _, rfl, hcalls, hadds, by simpa using hlen,
        ?_, ?_⟩
      · rw [hcalls]
        simp only [List.filter_cons, PackageCall.isSetMainModuleId, if_true,
          List.filter_append, List.filter_nil, Bool.false_eq_true, if_false, List.append_nil,
          List.cons.injEq, true_and]
        apply List.filter_eq_nil_iff.mpr
        intro c hc
        obtain ⟨x, _, rfl⟩ := List.mem_map.mp hc
        simp [PackageCall.isSetMainModuleId]
      · rw [hcalls]
        simp only [List.filter_cons, PackageCall.isFinalize, if_true,
          List.filter_append, List.filter_nil, Bool.false_eq_true, if_false]
        have hnil : (ts.map (fun transformed =>
            PackageCall.addModule transformed.code transformed.sourceCode
              transformed.sourcePath)).filter PackageCall.isFinalize = [] := by
          apply List.filter_eq_nil_iff.mpr
          intro c hc
          obtain ⟨x, _, rfl⟩ := List.mem_map.mp hc
          simp [PackageCall.isFinalize]
        rw [hnil]
        rfl

/-- Instance of C9: the three sample modules, bundled with `runModule` true
and the source map URL `a.map`. -/
theorem package_success_call_sequence_witness :
    (Packager.package sampleEnv "a.js" true "a.map" false [1, 2, 0]).ppackage.sourceMapUrl =
      "a.map" ∧
    (Packager.package sampleEnv "a.js" true "a.map" false [1, 2, 0]).ppackage.calls.filter
      PackageCall.isFinalize = [PackageCall.finalize true] := by
  obtain ⟨_, hurl, result, adds, _, _, _, _, _, hfin⟩ :=
    package_success_call_sequence sampleEnv "a.js" true "a.map" false [1, 2, 0]
      (Packager.package sampleEnv "a.js" true "a.map" false [1, 2, 0]).ppackage (by decide)
  exact ⟨hurl, hfin⟩

/-- Instance of C10: a props object with an `opacity` next to a `style`
object is merged with its flattened style. -/
theorem setNativeProps_props_witness :
    setNativeProps sampleFlattenStyle sampleMergeFast
        { nodeHandle := 7, uiViewClassName := "RCTView" }
        [("opacity", JSValue.number 1),
          ("style", JSValue.object [("color", JSValue.string "red")])] =
      [UIManagerCall.updateView 7 "RCTView"
        (JSValue.object [("opacity", JSValue.number 1),
          ("style", JSValue.object [("color", JSValue.string "red")]),
          ("color", JSValue.string "red")])] := by
  obtain ⟨props, hcall, _, _, hmerge⟩ :=
    setNativeProps_props sampleFlattenStyle sampleMergeFast
      { nodeHandle := 7, uiViewClassName := "RCTView" }
      [("opacity", JSValue.number 1),
        ("style", JSValue.object [("color", JSValue.string "red")])]
  rw [hcall, hmerge ⟨("opacity", JSValue.number 1), by simp, by decide⟩ rfl]
  rfl

end ReactPackager
